import Mathlib

/-!
Verification of the nba_whodunit data-enrichment pipeline.

The development shallowly embeds the two decision-making services of the
repository:

* `backend/python/services/enriching_service.py` — the name normalizer
  (`treat_name` plus the transliteration step) and the two-stage identity
  resolver (primary merge on (Year, Round, Pick), fallback merge on
  (treated name, Year), de-duplication on the natural key, country mapping);
* `backend/python/services/get_award_data.py` — the award enricher
  (team skip rule, per-row eligibility, de-duplicated fetch loop with
  memoization, write-back, error propagation).

Python strings are modelled as `List Char`; the Python string methods used by
the source (`str.replace`, `str.removesuffix`, `str.strip`, `str.lower`) are
defined below with their exact left-to-right, non-overlapping semantics.
External collaborators (the unidecode transliteration table, `json.loads`,
the network fetch, the country-code lookup) are modelled as explicit
parameters or finite tables, as the specification treats them.
-/

/-- A character Python `str.strip()` removes: space and the ASCII control
whitespace characters (tab, newline, vertical tab, form feed, carriage
return, code points 9 to 13). -/
def isPySpace (c : Char) : Bool :=
  c == ' ' || (decide (9 ≤ c.toNat) && decide (c.toNat ≤ 13))

/-- The apostrophe character (code point 39), named to keep quoting tidy. -/
def apoChar : Char := Char.ofNat 39

/-- Python `str.replace`, fuel-indexed so that it is structurally recursive:
scan left to right; at each position, if the pattern matches, emit the
replacement and skip past the match, otherwise keep the character. The fuel
is always instantiated with the length of the scanned list, which bounds the
number of steps. -/
def pyReplaceAux (pat rep : List Char) : Nat → List Char → List Char
  | _, [] => []
  | 0, s => s
  | Nat.succ fuel, c :: rest =>
    if pat.isPrefixOf (c :: rest) then
      rep ++ pyReplaceAux pat rep fuel (rest.drop (pat.length - 1))
    else
      c :: pyReplaceAux pat rep fuel rest

/-- Python `s.replace(pat, rep)` on character lists (for non-empty `pat`,
which is the only way the source uses it). -/
def pyReplace (pat rep s : List Char) : List Char :=
  pyReplaceAux pat rep s.length s

/-- Python `s.removesuffix(pat)`: drop `pat` from the end when it is a
suffix, otherwise return the string unchanged. -/
def pyRemoveSuffix (pat s : List Char) : List Char :=
  if pat.isSuffixOf s then s.take (s.length - pat.length) else s

/-- Python `s.strip()`: drop leading and trailing whitespace. -/
def pyStrip (s : List Char) : List Char :=
  ((s.dropWhile isPySpace).reverse.dropWhile isPySpace).reverse

/-- Python `s.lower()` restricted to the ASCII range, which is all the source
compares after lowering (the literal "nan"). -/
def pyLower (s : List Char) : List Char :=
  s.map Char.toLower

/-- The `treat_name` cleaning chain of `enriching_service.py`, applied in the
exact order of the source: remove the suffixes " Jr" and " Jr.", expand the
nicknames "Cam" and "Moe", remove the suffixes " II", " III" and " IV",
delete apostrophes, periods and commas, turn hyphens into spaces, collapse
one double-space pattern, and strip surrounding whitespace. -/
def treatNameL (s : List Char) : List Char :=
  pyStrip
    (pyReplace "  ".data " ".data
      (pyReplace "-".data " ".data
        (pyReplace ",".data []
          (pyReplace ".".data []
            (pyReplace [apoChar] []
              (pyRemoveSuffix " IV".data
                (pyRemoveSuffix " III".data
                  (pyRemoveSuffix " II".data
                    (pyReplace "Moe".data "Moritz".data
                      (pyReplace "Cam".data "Cameron".data
                        (pyRemoveSuffix " Jr.".data
                          (pyRemoveSuffix " Jr".data s))))))))))))

/-- String-level wrapper of `treatNameL`, the embedding of `treat_name`. -/
def treat_name (name : String) : String :=
  (treatNameL name.data).asString

/-- Modelled from the spec: the transliteration step ("transliterate to base
Latin characters (strip diacritics)") is the `unidecode` collaborator, which
is outside the repository. It is modelled as a finite table sending accented
Latin letters to their base letters and leaving every other character
unchanged. -/
def translitTable : List (Char × Char) :=
  [('á', 'a'), ('à', 'a'), ('â', 'a'), ('ä', 'a'), ('ã', 'a'), ('å', 'a'),
   ('é', 'e'), ('è', 'e'), ('ê', 'e'), ('ë', 'e'),
   ('í', 'i'), ('ì', 'i'), ('î', 'i'), ('ï', 'i'),
   ('ó', 'o'), ('ò', 'o'), ('ô', 'o'), ('ö', 'o'), ('õ', 'o'), ('ø', 'o'),
   ('ú', 'u'), ('ù', 'u'), ('û', 'u'), ('ü', 'u'),
   ('ý', 'y'), ('ÿ', 'y'), ('ñ', 'n'), ('ç', 'c'),
   ('š', 's'), ('ž', 'z'), ('č', 'c'), ('ć', 'c'), ('đ', 'd'),
   ('ā', 'a'), ('ē', 'e'), ('ī', 'i'), ('ō', 'o'), ('ū', 'u'),
   ('ł', 'l'), ('ş', 's'), ('ģ', 'g'), ('ņ', 'n'), ('ķ', 'k'),
   ('Á', 'A'), ('À', 'A'), ('Â', 'A'), ('Ä', 'A'), ('Ã', 'A'), ('Å', 'A'),
   ('É', 'E'), ('È', 'E'), ('Ê', 'E'), ('Ë', 'E'),
   ('Í', 'I'), ('Ì', 'I'), ('Î', 'I'), ('Ï', 'I'),
   ('Ó', 'O'), ('Ò', 'O'), ('Ô', 'O'), ('Ö', 'O'), ('Õ', 'O'), ('Ø', 'O'),
   ('Ú', 'U'), ('Ù', 'U'), ('Û', 'U'), ('Ü', 'U'),
   ('Ý', 'Y'), ('Ñ', 'N'), ('Ç', 'C'),
   ('Š', 'S'), ('Ž', 'Z'), ('Č', 'C'), ('Ć', 'C'), ('Đ', 'D')]

/-- Transliterate one character through the table; characters not in the
table are their own transliteration. -/
def translitChar (c : Char) : Char :=
  (translitTable.lookup c).getD c

/-- Transliterate a character list. -/
def translitL (s : List Char) : List Char :=
  s.map translitChar

/-- The full name normalizer of the pipeline: `treat_name` followed by the
transliteration step, exactly as `enriching_service.main` applies them
(`.apply(treat_name).apply(unidecode.unidecode)`). -/
def normalizeName (name : String) : String :=
  (translitL (treatNameL name.data)).asString

/-! ### Character-level facts about the Python string operations -/

theorem mem_pyReplaceAux {c : Char} (pat rep : List Char) :
    ∀ (fuel : Nat) (s : List Char), c ∈ pyReplaceAux pat rep fuel s → c ∈ s ∨ c ∈ rep := by
  intro fuel
  induction fuel with
  | zero =>
    intro s h
    cases s with
    | nil => simp [pyReplaceAux] at h
    | cons a as => exact Or.inl (by simpa [pyReplaceAux] using h)
  | succ fuel ih =>
    intro s h
    cases s with
    | nil => simp [pyReplaceAux] at h
    | cons a as =>
      by_cases hp : pat.isPrefixOf (a :: as)
      · rw [pyReplaceAux, if_pos hp] at h
        rcases List.mem_append.mp h with h1 | h1
        · exact Or.inr h1
        · rcases ih _ h1 with h2 | h2
          · exact Or.inl (List.mem_cons_of_mem _ (List.mem_of_mem_drop h2))
          · exact Or.inr h2
      · rw [pyReplaceAux, if_neg hp] at h
        rcases List.mem_cons.mp h with h1 | h1
        · exact Or.inl (h1 ▸ List.mem_cons_self _ _)
        · rcases ih _ h1 with h2 | h2
          · exact Or.inl (List.mem_cons_of_mem _ h2)
          · exact Or.inr h2

theorem mem_pyReplace {c : Char} {pat rep s : List Char} :
    c ∈ pyReplace pat rep s → c ∈ s ∨ c ∈ rep :=
  mem_pyReplaceAux pat rep s.length s

theorem notMem_pyReplace {c : Char} {pat rep s : List Char}
    (hs : c ∉ s) (hr : c ∉ rep) : c ∉ pyReplace pat rep s :=
  fun h => (mem_pyReplace h).elim hs hr

theorem notMem_pyReplaceAux_single {p : Char} (rep : List Char) (hrep : p ∉ rep) :
    ∀ (fuel : Nat) (s : List Char), s.length ≤ fuel → p ∉ pyReplaceAux [p] rep fuel s := by
  intro fuel
  induction fuel with
  | zero =>
    intro s hlen
    have hs : s = [] := List.length_eq_zero.mp (Nat.le_zero.mp hlen)
    subst hs
    simp [pyReplaceAux]
  | succ fuel ih =>
    intro s hlen h
    cases s with
    | nil => simp [pyReplaceAux] at h
    | cons a as =>
      have hlen2 : as.length ≤ fuel := Nat.le_of_succ_le_succ (by simpa using hlen)
      by_cases hp : List.isPrefixOf [p] (a :: as)
      · rw [pyReplaceAux, if_pos hp] at h
        rcases List.mem_append.mp h with h1 | h1
        · exact hrep h1
        · have h2 : p ∈ pyReplaceAux [p] rep fuel as := by simpa using h1
          exact ih as hlen2 h2
      · have ha : ¬ (p == a) := by
          intro hpa
          exact hp (by simp [List.isPrefixOf, hpa])
        rw [pyReplaceAux, if_neg hp] at h
        rcases List.mem_cons.mp h with h1 | h1
        · exact ha (by simp [h1])
        · exact ih as hlen2 h1

theorem notMem_pyReplace_single {p : Char} {rep s : List Char} (hrep : p ∉ rep) :
    p ∉ pyReplace [p] rep s :=
  notMem_pyReplaceAux_single rep hrep s.length s (Nat.le_refl _)

theorem mem_pyRemoveSuffix {c : Char} {pat s : List Char} :
    c ∈ pyRemoveSuffix pat s → c ∈ s := by
  intro h
  unfold pyRemoveSuffix at h
  by_cases hp : pat.isSuffixOf s
  · rw [if_pos hp] at h
    exact (List.take_sublist _ _).subset h
  · rwa [if_neg hp] at h

theorem mem_pyStrip {c : Char} {s : List Char} : c ∈ pyStrip s → c ∈ s := by
  intro h
  unfold pyStrip at h
  have h1 := List.mem_reverse.mp h
  have h2 := (List.dropWhile_sublist _).subset h1
  have h3 := List.mem_reverse.mp h2
  exact (List.dropWhile_sublist _).subset h3

theorem notMem_pyStrip {c : Char} {s : List Char} (hs : c ∉ s) : c ∉ pyStrip s :=
  fun h => hs (mem_pyStrip h)

theorem lookup_mem_pairs :
    ∀ (l : List (Char × Char)) (a b : Char), l.lookup a = some b → (a, b) ∈ l := by
  intro l
  induction l with
  | nil => intro a b h; simp [List.lookup] at h
  | cons p ps ih =>
    intro a b h
    cases p with
    | mk k v =>
      by_cases hk : a == k
      · have ha : a = k := by simpa using hk
        have hv : v = b := by
          rw [List.lookup, hk] at h
          simpa using h
        subst ha; subst hv
        exact List.mem_cons_self _ _
      · have h2 : ps.lookup a = some b := by
          rw [List.lookup] at h
          simpa [Bool.not_eq_true] using (by rw [Bool.of_not_eq_true hk] at h; simpa using h : ps.lookup a = some b)
        exact List.mem_cons_of_mem _ (ih a b h2)

theorem translitTable_range_clean :
    translitTable.all
      (fun q => !(q.2 == apoChar) && !(q.2 == '.') && !(q.2 == ',')
        && (translitTable.lookup q.2).isNone) = true := by decide

theorem translitChar_idem (c : Char) : translitChar (translitChar c) = translitChar c := by
  unfold translitChar
  cases hl : translitTable.lookup c with
  | none => simp [hl]
  | some v =>
    have hmem := lookup_mem_pairs _ _ _ hl
    have hall := translitTable_range_clean
    rw [List.all_eq_true] at hall
    have hq := hall _ hmem
    simp only [Bool.and_eq_true] at hq
    have hnone : translitTable.lookup v = none := Option.isNone_iff_eq_none.mp hq.2
    simp [hnone]

theorem notMem_translitL {c : Char} {s : List Char} (hc : c ∉ s)
    (htab : ∀ q ∈ translitTable, q.2 ≠ c) : c ∉ translitL s := by
  intro h
  rcases List.mem_map.mp h with ⟨d, hd, hdc⟩
  unfold translitChar at hdc
  cases hl : translitTable.lookup d with
  | none =>
    rw [hl] at hdc
    simp only [Option.getD_none] at hdc
    exact hc (hdc ▸ hd)
  | some v =>
    rw [hl] at hdc
    simp only [Option.getD_some] at hdc
    exact htab _ (lookup_mem_pairs _ _ _ hl) hdc

theorem translitL_fixed {s : List Char} : ∀ c ∈ translitL s, translitChar c = c := by
  intro c h
  rcases List.mem_map.mp h with ⟨d, _, hdc⟩
  rw [← hdc]
  exact translitChar_idem d

theorem translitTable_snd_ne :
    ∀ q ∈ translitTable, q.2 ≠ apoChar ∧ q.2 ≠ '.' ∧ q.2 ≠ ',' := by
  intro q hq
  have hall := translitTable_range_clean
  rw [List.all_eq_true] at hall
  have h := hall q hq
  simp only [Bool.and_eq_true, Bool.not_eq_true', beq_eq_false_iff_ne] at h
  exact ⟨h.1.1.1, h.1.1.2, h.1.2⟩

theorem treatNameL_clean (l : List Char) :
    apoChar ∉ treatNameL l ∧ ('.' : Char) ∉ treatNameL l ∧ (',' : Char) ∉ treatNameL l := by
  have hApoNil : apoChar ∉ ([] : List Char) := by simp
  have hDotNil : ('.' : Char) ∉ ([] : List Char) := by simp
  have hComNil : (',' : Char) ∉ ([] : List Char) := by simp
  have hApoSp : apoChar ∉ " ".data := by decide
  have hDotSp : ('.' : Char) ∉ " ".data := by decide
  have hComSp : (',' : Char) ∉ " ".data := by decide
  unfold treatNameL
  refine ⟨notMem_pyStrip ?_, notMem_pyStrip ?_, notMem_pyStrip ?_⟩
  · exact notMem_pyReplace
      (notMem_pyReplace
        (notMem_pyReplace
          (notMem_pyReplace (notMem_pyReplace_single hApoNil) hApoNil)
          hApoNil)
        hApoSp)
      hApoSp
  · exact notMem_pyReplace
      (notMem_pyReplace
        (notMem_pyReplace (notMem_pyReplace_single hDotNil) hDotNil)
        hDotSp)
      hDotSp
  · exact notMem_pyReplace
      (notMem_pyReplace (notMem_pyReplace_single hComNil) hComSp)
      hComSp

/-- C9: the Name Normalizer (`treat_name` followed by the transliteration
step) is a deterministic function, and for every input name its output
contains no apostrophe, period or comma character and no diacritic (every
output character is a fixed point of the transliteration table). -/
theorem c9_name_normalizer_deterministic_clean (s : String) :
    (∀ t : String, s = t → normalizeName s = normalizeName t) ∧
    apoChar ∉ (normalizeName s).toList ∧
    ('.' : Char) ∉ (normalizeName s).toList ∧
    (',' : Char) ∉ (normalizeName s).toList ∧
    (∀ c ∈ (normalizeName s).toList, translitChar c = c) := by
  have hcore := treatNameL_clean s.data
  have hdata : (normalizeName s).toList = translitL (treatNameL s.data) :=
    List.toList_asString _
  refine ⟨fun t ht => by rw [ht], ?_, ?_, ?_, ?_⟩
  · rw [hdata]
    exact notMem_translitL hcore.1 (fun q hq => (translitTable_snd_ne q hq).1)
  · rw [hdata]
    exact notMem_translitL hcore.2.1 (fun q hq => (translitTable_snd_ne q hq).2.1)
  · rw [hdata]
    exact notMem_translitL hcore.2.2 (fun q hq => (translitTable_snd_ne q hq).2.2)
  · rw [hdata]
    exact translitL_fixed

theorem c9_name_normalizer_witness :
    normalizeName "Luka Dončić" = normalizeName "Luka Dončić" ∧
    apoChar ∉ (normalizeName "Luka Dončić").toList ∧
    normalizeName "Luka Dončić" = "Luka Doncic" :=
  ⟨(c9_name_normalizer_deterministic_clean "Luka Dončić").1 _ rfl,
   (c9_name_normalizer_deterministic_clean "Luka Dončić").2.1,
   by decide⟩

/-- C10: `treat_name` is not idempotent: the nickname rules replace the
substrings "Cam" and "Moe" anywhere in the name, so the canonical form
"Cameron" maps to "Cameroneron" and applying `treat_name` twice differs from
applying it once; a name merely containing "Cam" inside a longer word is
also altered. -/
theorem c10_treat_name_not_idempotent :
    treat_name "Cameron" = "Cameroneron" ∧
    treat_name (treat_name "Cameron") ≠ treat_name "Cameron" ∧
    treat_name "Camden" = "Cameronden" :=
  ⟨by decide, by decide, by decide⟩

/-! ### Identity Resolver (`enriching_service.main`)

One team iteration of `main`: the raw per-team table `curr_df` is left-merged
with the player master `nba_df` on (Year, Round, Pick) against
(DRAFT_YEAR, DRAFT_ROUND, DRAFT_NUMBER); rows left unmatched are then merged
on (treated_name, Year) against (treated_name, DRAFT_YEAR) and the five
identity and enrichment columns of the unmatched positions are overwritten
with the positionally aligned values of that second merge; duplicates on
(Year, Round, Pick) are dropped keeping the first; finally origin_country is
mapped through the country-code table.

A pandas left merge emits one output row per matching right row (or a single
all-null row when nothing matches), in left order. The positional write-back
`curr_df_merged.loc[unmatched_mask, col] = unmatched_df[col].values` demands
that the value array have exactly as many entries as the mask has set rows;
pandas raises a ValueError otherwise, which the model renders as `none`. -/

/-- Concatenation of the images of a list under a list-valued function (the
row fan-out of a pandas merge). -/
def flatMapL {α β : Type} (f : α → List β) : List α → List β
  | [] => []
  | a :: as => f a ++ flatMapL f as

/-- One row of the player master table `nba_df` (columns used by `main`). -/
structure NbaRow where
  nba_id : Int
  first_name : String
  last_name : String
  DRAFT_YEAR : Int
  DRAFT_ROUND : Int
  DRAFT_NUMBER : Int
  COUNTRY : Option String
  TO_YEAR : Option Int
  IS_DEFUNCT : Bool
  real_team : Option String
deriving DecidableEq

/-- The computed `full_name` column: `first_name + " " + last_name`. -/
def full_name (m : NbaRow) : String :=
  m.first_name ++ " " ++ m.last_name

/-- The computed `treated_name` column of `nba_df`:
`treat_name` then `unidecode`. -/
def nbaTreatedName (m : NbaRow) : String :=
  normalizeName (full_name m)

/-- One row of a raw per-team draft table `data/csv/{team}.csv` (columns used
by `main`; the remaining scraped columns ride along unchanged inside
`Player`-carrying rows and are not modelled individually). -/
structure CsvRow where
  Player : String
  Team : String
  Year : Int
  Round : Int
  Pick : Int
deriving DecidableEq

/-- The computed `treated_name` column of `curr_df`. -/
def csvTreatedName (r : CsvRow) : String :=
  normalizeName r.Player

/-- A row of `curr_df_merged`: the draft row plus its treated name plus the
five nullable identity and enrichment columns taken from the master. -/
structure MergedRow where
  src : CsvRow
  treated_name : String
  nba_id : Option Int
  COUNTRY : Option String
  TO_YEAR : Option Int
  IS_DEFUNCT : Option Bool
  real_team : Option String
deriving DecidableEq

/-- The master rows matching a draft row in the primary merge:
(Year, Round, Pick) = (DRAFT_YEAR, DRAFT_ROUND, DRAFT_NUMBER). -/
def primaryMatches (ms : List NbaRow) (r : CsvRow) : List NbaRow :=
  ms.filter (fun m =>
    m.DRAFT_YEAR == r.Year && m.DRAFT_ROUND == r.Round && m.DRAFT_NUMBER == r.Pick)

/-- A merged row carrying the identity and enrichment values of master row
`m`. -/
def mkMerged (r : CsvRow) (m : NbaRow) : MergedRow :=
  ⟨r, csvTreatedName r, some m.nba_id, m.COUNTRY, m.TO_YEAR, some m.IS_DEFUNCT, m.real_team⟩

/-- A merged row with all identity and enrichment columns null (the left-merge
output for a draft row with no master match). -/
def mkUnmatched (r : CsvRow) : MergedRow :=
  ⟨r, csvTreatedName r, none, none, none, none, none⟩

/-- The left-merge fan-out of one draft row in the primary merge. -/
def leftJoinPrimary (ms : List NbaRow) (r : CsvRow) : List MergedRow :=
  match primaryMatches ms r with
  | [] => [mkUnmatched r]
  | m :: rest => (m :: rest).map (mkMerged r)

/-- The primary merge (Step 1): left merge of the whole team table. -/
def primaryMerge (rows : List CsvRow) (ms : List NbaRow) : List MergedRow :=
  flatMapL (leftJoinPrimary ms) rows

/-- A row is unmatched when its `nba_id` is null (`curr_df_merged["nba_id"].isna()`). -/
def isUnmatched (row : MergedRow) : Bool :=
  row.nba_id.isNone

/-- The master rows matching a merged row in the fallback merge:
(treated_name, Year) = (treated_name, DRAFT_YEAR). -/
def fallbackMatches (ms : List NbaRow) (row : MergedRow) : List NbaRow :=
  ms.filter (fun m => nbaTreatedName m == row.treated_name && m.DRAFT_YEAR == row.src.Year)

/-- The five columns the fallback write-back copies:
nba_id, COUNTRY, TO_YEAR, IS_DEFUNCT, real_team. -/
def FbVals : Type :=
  Option Int × Option String × Option Int × Option Bool × Option String

/-- Fallback column values taken from a master row. -/
def fbVals (m : NbaRow) : FbVals :=
  (some m.nba_id, m.COUNTRY, m.TO_YEAR, some m.IS_DEFUNCT, m.real_team)

/-- Fallback column values of a left-merge row with no match (all null). -/
def fbNull : FbVals :=
  (none, none, none, none, none)

/-- The fallback left-merge fan-out of one unmatched row, projected to the
five copied columns. -/
def fallbackRows (ms : List NbaRow) (row : MergedRow) : List FbVals :=
  match fallbackMatches ms row with
  | [] => [fbNull]
  | m :: rest => (m :: rest).map fbVals

/-- The value arrays `unmatched_df[col].values` of the fallback merge, in
left order. -/
def buildFallbackVals (ms : List NbaRow) (unmatched : List MergedRow) : List FbVals :=
  flatMapL (fallbackRows ms) unmatched

/-- Overwrite the five identity and enrichment columns of a row. -/
def setVals (row : MergedRow) (v : FbVals) : MergedRow :=
  { row with nba_id := v.1, COUNTRY := v.2.1, TO_YEAR := v.2.2.1,
             IS_DEFUNCT := v.2.2.2.1, real_team := v.2.2.2.2 }

/-- The positional write-back `curr_df_merged.loc[unmatched_mask, col] =
values`: walk the merged rows, consume one value per unmatched row, and fail
(`none`, the pandas ValueError) when the value array and the mask disagree in
length. -/
def assignFallback : List MergedRow → List FbVals → Option (List MergedRow)
  | [], vals =>
    match vals with
    | [] => some []
    | _ :: _ => none
  | row :: rest, vals =>
    if isUnmatched row then
      match vals with
      | [] => none
      | v :: vs => (assignFallback rest vs).map (fun out => setVals row v :: out)
    else
      (assignFallback rest vals).map (fun out => row :: out)

/-- Step 2, the fallback pass: when any row is unmatched, merge the unmatched
rows on (treated_name, Year) and write the resulting columns back into the
unmatched positions. -/
def fallbackStep (ms : List NbaRow) (merged : List MergedRow) : Option (List MergedRow) :=
  let unmatched := merged.filter isUnmatched
  if unmatched.isEmpty then some merged
  else assignFallback merged (buildFallbackVals ms unmatched)

/-- The de-duplication key `subset=["Year", "Round", "Pick"]`. -/
def natKey3 (r : CsvRow) : Int × Int × Int :=
  (r.Year, r.Round, r.Pick)

/-- The natural key of an enriched record: (team, year, round, pick). -/
def natKey4 (r : CsvRow) : String × Int × Int × Int :=
  (r.Team, r.Year, r.Round, r.Pick)

/-- `drop_duplicates(subset=["Year", "Round", "Pick"])`, keeping the first
occurrence of each key; `seen` accumulates the keys already kept. -/
def dropDupAux : List (Int × Int × Int) → List MergedRow → List MergedRow
  | _, [] => []
  | seen, r :: rest =>
    if natKey3 r.src ∈ seen then dropDupAux seen rest
    else r :: dropDupAux (natKey3 r.src :: seen) rest

/-- The de-duplication step of `main`. -/
def drop_duplicates (l : List MergedRow) : List MergedRow :=
  dropDupAux [] l

/-- The country-code mapping step: `origin_country.map(country_to_iso)`. The
`get_country_isos` collaborator is modelled as a partial map from country
names to codes; names it does not map become null, and null stays null. -/
def applyCountryMap (cmap : String → Option String) (row : MergedRow) : MergedRow :=
  { row with COUNTRY := row.COUNTRY.bind cmap }

/-- One full Identity Resolver run for one team: primary merge, fallback
pass, de-duplication, country mapping. `none` models the pandas ValueError
raised by the positional write-back on a fan-out length mismatch (the run
aborts and no output file is written). -/
def resolveTeam (rows : List CsvRow) (ms : List NbaRow)
    (cmap : String → Option String) : Option (List MergedRow) :=
  match fallbackStep ms (primaryMerge rows ms) with
  | none => none
  | some updated => some ((drop_duplicates updated).map (applyCountryMap cmap))

/-! ### Facts about the fallback write-back -/

/-- The per-row effect of the fallback pass when the positional write-back is
well aligned: a matched row is untouched; an unmatched row receives the
columns of its first fallback candidate, or nulls when it has none. -/
def updRow (ms : List NbaRow) (row : MergedRow) : MergedRow :=
  if isUnmatched row then
    match fallbackMatches ms row with
    | [] => setVals row fbNull
    | m :: _ => setVals row (fbVals m)
  else row

theorem updRow_src (ms : List NbaRow) (row : MergedRow) : (updRow ms row).src = row.src := by
  unfold updRow
  by_cases h : isUnmatched row
  · rw [if_pos h]
    cases fallbackMatches ms row with
    | nil => rfl
    | cons m rest => rfl
  · rw [if_neg h]

theorem updRow_of_matched {ms : List NbaRow} {row : MergedRow}
    (h : isUnmatched row = false) : updRow ms row = row := by
  unfold updRow
  rw [h]
  simp

theorem assignFallback_some_length :
    ∀ (xs : List MergedRow) (vals : List FbVals) (out : List MergedRow),
      assignFallback xs vals = some out →
      vals.length = (xs.filter isUnmatched).length ∧ out.length = xs.length := by
  intro xs
  induction xs with
  | nil =>
    intro vals out h
    cases vals with
    | nil =>
      have : out = [] := by simpa [assignFallback] using h.symm
      simp [this]
    | cons v vs => simp [assignFallback] at h
  | cons row rest ih =>
    intro vals out h
    by_cases hu : isUnmatched row = true
    · cases vals with
      | nil => simp [assignFallback, hu] at h
      | cons v vs =>
        simp only [assignFallback, hu, if_true] at h
        rcases Option.map_eq_some'.mp h with ⟨out', hout', rfl⟩
        have := ih vs out' hout'
        simp [List.filter_cons, hu, this.1, this.2]
    · have hu' : isUnmatched row = false := by simpa using hu
      simp only [assignFallback, hu', Bool.false_eq_true, if_false] at h
      rcases Option.map_eq_some'.mp h with ⟨out', hout', rfl⟩
      have := ih vals out' hout'
      simp [List.filter_cons, hu', this.1, this.2]

theorem fallbackRows_length_pos (ms : List NbaRow) (row : MergedRow) :
    1 ≤ (fallbackRows ms row).length := by
  unfold fallbackRows
  cases fallbackMatches ms row with
  | nil => simp
  | cons m rest => simp

theorem buildFallbackVals_length_ge (ms : List NbaRow) :
    ∀ us : List MergedRow, us.length ≤ (buildFallbackVals ms us).length := by
  intro us
  induction us with
  | nil => simp [buildFallbackVals, flatMapL]
  | cons u tail ih =>
    show tail.length + 1 ≤ (fallbackRows ms u ++ buildFallbackVals ms tail).length
    rw [List.length_append]
    have h1 := fallbackRows_length_pos ms u
    omega

theorem assignFallback_build_eq (ms : List NbaRow) :
    ∀ (xs : List MergedRow) (out : List MergedRow),
      assignFallback xs (buildFallbackVals ms (xs.filter isUnmatched)) = some out →
      out = xs.map (updRow ms) := by
  intro xs
  induction xs with
  | nil =>
    intro out h
    simpa [assignFallback, buildFallbackVals, flatMapL] using (by simpa [assignFallback, buildFallbackVals, flatMapL] using h : some [] = some out).symm
  | cons row rest ih =>
    intro out h
    by_cases hu : isUnmatched row = true
    · rw [List.filter_cons_of_pos hu] at h
      have hbuild : buildFallbackVals ms (row :: rest.filter isUnmatched)
          = fallbackRows ms row ++ buildFallbackVals ms (rest.filter isUnmatched) := rfl
      rw [hbuild] at h
      cases hfb : fallbackMatches ms row with
      | nil =>
        have hrows : fallbackRows ms row = [fbNull] := by unfold fallbackRows; rw [hfb]
        rw [hrows] at h
        simp only [assignFallback, hu, if_true] at h
        rcases Option.map_eq_some'.mp h with ⟨out', hout', rfl⟩
        have := ih out' hout'
        simp only [List.map_cons, this]
        have : updRow ms row = setVals row fbNull := by unfold updRow; rw [if_pos hu, hfb]
        rw [this]
      | cons m mrest =>
        have hrows : fallbackRows ms row = fbVals m :: mrest.map fbVals := by
          unfold fallbackRows; rw [hfb]; rfl
        rw [hrows] at h
        simp only [List.cons_append] at h
        simp only [assignFallback, hu, if_true] at h
        rcases Option.map_eq_some'.mp h with ⟨out', hout', rfl⟩
        have hlen := (assignFallback_some_length rest _ out' hout').1
        have hge := buildFallbackVals_length_ge ms (rest.filter isUnmatched)
        rw [List.length_append, List.length_map] at hlen
        have hmrest : mrest = [] := by
          cases mrest with
          | nil => rfl
          | cons a b => simp only [List.length_cons] at hlen; omega
        subst hmrest
        simp only [List.map_nil, List.nil_append] at hout'
        have := ih out' hout'
        simp only [List.map_cons, this]
        have : updRow ms row = setVals row (fbVals m) := by unfold updRow; rw [if_pos hu, hfb]
        rw [this]
    · have hu' : isUnmatched row = false := by simpa using hu
      rw [List.filter_cons_of_neg (by simp [hu'])] at h
      simp only [assignFallback, hu', Bool.false_eq_true, if_false] at h
      rcases Option.map_eq_some'.mp h with ⟨out', hout', rfl⟩
      have := ih out' hout'
      simp only [List.map_cons, this]
      rw [updRow_of_matched hu']

theorem fallbackStep_some_eq {ms : List NbaRow} {merged out : List MergedRow}
    (h : fallbackStep ms merged = some out) : out = merged.map (updRow ms) := by
  unfold fallbackStep at h
  by_cases he : (merged.filter isUnmatched).isEmpty
  · simp only [he, if_true] at h
    have hnil : merged.filter isUnmatched = [] := by
      cases hq : merged.filter isUnmatched with
      | nil => rfl
      | cons a b => rw [hq] at he; simp [List.isEmpty] at he
    have hall : ∀ x ∈ merged, isUnmatched x = false := by
      intro x hx
      by_contra hcon
      have : x ∈ merged.filter isUnmatched :=
        List.mem_filter.mpr ⟨hx, by simpa using hcon⟩
      rw [hnil] at this
      simp at this
    have hmap : merged.map (updRow ms) = merged := by
      have h1 : merged.map (updRow ms) = merged.map id :=
        List.map_congr_left (fun x hx => by rw [updRow_of_matched (hall x hx)]; rfl)
      rw [h1, List.map_id]
    rw [hmap]
    exact (Option.some.injEq _ _ ▸ h).symm
  · simp only [he, if_false] at h
    exact assignFallback_build_eq ms merged out h

/-- Concrete rows used by the identity-resolver witnesses: a draft row that
matches master row `tM1` on the structured key while master row `tM2` also
matches it on (treated name, year). -/
def tR : CsvRow := ⟨"Abc Def", "TT", 2000, 1, 5⟩

def tM1 : NbaRow := ⟨10, "Abc", "Def", 2000, 1, 5, some "United States", some 2010, false, some "X"⟩

def tM2 : NbaRow := ⟨20, "Abc", "Def", 2000, 2, 9, some "Slovenia", some 2012, false, some "Y"⟩

/-- C1: a row matched in the primary (Year, Round, Pick) pass is never
altered by the fallback (treated name, Year) pass: whenever the fallback
write-back completes, every position of the merged table whose `nba_id` was
already set keeps its entire row — identity and enrichment fields included —
even if a fallback candidate also exists for it; only unmatched positions
can receive fallback values. -/
theorem c1_primary_match_never_overwritten (rows : List CsvRow) (ms : List NbaRow)
    (out : List MergedRow)
    (h : fallbackStep ms (primaryMerge rows ms) = some out) :
    out.length = (primaryMerge rows ms).length ∧
    ∀ (i : Nat) (h1 : i < (primaryMerge rows ms).length) (h2 : i < out.length),
      ((primaryMerge rows ms).get ⟨i, h1⟩).nba_id.isSome = true →
      out.get ⟨i, h2⟩ = (primaryMerge rows ms).get ⟨i, h1⟩ := by
  have heq := fallbackStep_some_eq h
  subst heq
  refine ⟨List.length_map _ _, ?_⟩
  intro i h1 h2 hsome
  simp only [List.get_eq_getElem, List.getElem_map] at hsome ⊢
  refine updRow_of_matched ?_
  unfold isUnmatched
  rcases Option.isSome_iff_exists.mp hsome with ⟨a, ha⟩
  rw [ha]
  rfl

theorem c1_witness :
    fallbackStep [tM1, tM2] (primaryMerge [tR] [tM1, tM2])
        = some ((primaryMerge [tR] [tM1, tM2]).map (updRow [tM1, tM2])) ∧
    ((primaryMerge [tR] [tM1, tM2]).get ⟨0, by decide⟩).nba_id = some 10 ∧
    (fallbackMatches [tM1, tM2] ((primaryMerge [tR] [tM1, tM2]).get ⟨0, by decide⟩)).length = 2 ∧
    ((primaryMerge [tR] [tM1, tM2]).map (updRow [tM1, tM2])).get ⟨0, by decide⟩
      = (primaryMerge [tR] [tM1, tM2]).get ⟨0, by decide⟩ :=
  ⟨by decide, by decide, by decide,
   (c1_primary_match_never_overwritten [tR] [tM1, tM2] _ (by decide)).2 0
     (by decide) (by decide) (by decide)⟩

/-! ### Facts about the primary merge and the de-duplication step -/

theorem leftJoinPrimary_src (ms : List NbaRow) (r : CsvRow) :
    ∀ x ∈ leftJoinPrimary ms r, x.src = r := by
  intro x hx
  unfold leftJoinPrimary at hx
  cases hm : primaryMatches ms r with
  | nil =>
    rw [hm] at hx
    simp only [List.mem_singleton] at hx
    rw [hx]
    rfl
  | cons m rest =>
    rw [hm] at hx
    rcases List.mem_map.mp hx with ⟨y, _, hy⟩
    rw [← hy]
    rfl

theorem leftJoinPrimary_ne_nil (ms : List NbaRow) (r : CsvRow) :
    leftJoinPrimary ms r ≠ [] := by
  unfold leftJoinPrimary
  cases primaryMatches ms r with
  | nil => simp
  | cons m rest => simp

theorem mem_primaryMerge {x : MergedRow} {rows : List CsvRow} {ms : List NbaRow} :
    x ∈ primaryMerge rows ms → ∃ r ∈ rows, x.src = r := by
  induction rows with
  | nil => intro h; simp [primaryMerge, flatMapL] at h
  | cons r rest ih =>
    intro h
    rcases List.mem_append.mp h with h1 | h1
    · exact ⟨r, List.mem_cons_self _ _, leftJoinPrimary_src ms r x h1⟩
    · rcases ih h1 with ⟨r', hr', hx⟩
      exact ⟨r', List.mem_cons_of_mem _ hr', hx⟩

theorem dropDupAux_skip (seen : List (Int × Int × Int)) :
    ∀ (pre zs : List MergedRow), (∀ x ∈ pre, natKey3 x.src ∈ seen) →
      dropDupAux seen (pre ++ zs) = dropDupAux seen zs := by
  intro pre
  induction pre with
  | nil => intro zs _; rfl
  | cons p ps ih =>
    intro zs hall
    have hp : natKey3 p.src ∈ seen := hall p (List.mem_cons_self _ _)
    show dropDupAux seen (p :: (ps ++ zs)) = dropDupAux seen zs
    rw [dropDupAux, if_pos hp]
    exact ih zs (fun x hx => hall x (List.mem_cons_of_mem _ hx))

theorem mem_dropDupAux {x : MergedRow} :
    ∀ (l : List MergedRow) (seen : List (Int × Int × Int)),
      x ∈ dropDupAux seen l → x ∈ l := by
  intro l
  induction l with
  | nil => intro seen h; simp [dropDupAux] at h
  | cons r rest ih =>
    intro seen h
    rw [dropDupAux] at h
    by_cases hk : natKey3 r.src ∈ seen
    · rw [if_pos hk] at h
      exact List.mem_cons_of_mem _ (ih seen h)
    · rw [if_neg hk] at h
      rcases List.mem_cons.mp h with h1 | h1
      · exact h1 ▸ List.mem_cons_self _ _
      · exact List.mem_cons_of_mem _ (ih _ h1)

theorem dropDupAux_key_notMem_seen {x : MergedRow} :
    ∀ (l : List MergedRow) (seen : List (Int × Int × Int)),
      x ∈ dropDupAux seen l → natKey3 x.src ∉ seen := by
  intro l
  induction l with
  | nil => intro seen h; simp [dropDupAux] at h
  | cons r rest ih =>
    intro seen h
    rw [dropDupAux] at h
    by_cases hk : natKey3 r.src ∈ seen
    · rw [if_pos hk] at h
      exact ih seen h
    · rw [if_neg hk] at h
      rcases List.mem_cons.mp h with h1 | h1
      · rw [h1]; exact hk
      · have := ih _ h1
        intro hcon
        exact this (List.mem_cons_of_mem _ hcon)

theorem dropDupAux_pairwise :
    ∀ (l : List MergedRow) (seen : List (Int × Int × Int)),
      (dropDupAux seen l).Pairwise (fun a b => natKey3 a.src ≠ natKey3 b.src) := by
  intro l
  induction l with
  | nil => intro seen; simp [dropDupAux]
  | cons r rest ih =>
    intro seen
    rw [dropDupAux]
    by_cases hk : natKey3 r.src ∈ seen
    · rw [if_pos hk]; exact ih seen
    · rw [if_neg hk]
      refine List.Pairwise.cons ?_ (ih _)
      intro b hb hcon
      have := dropDupAux_key_notMem_seen rest _ hb
      exact this (hcon ▸ List.mem_cons_self _ _)

/-- The core shape of one resolver run with pairwise distinct input keys: the
de-duplicated, fallback-updated merge output has exactly one row per input
row, positionally derived from it. -/
theorem resolverCore (ms : List NbaRow) :
    ∀ (rows : List CsvRow) (seen : List (Int × Int × Int)),
      rows.Pairwise (fun a b => natKey3 a ≠ natKey3 b) →
      (∀ r ∈ rows, natKey3 r ∉ seen) →
      (dropDupAux seen ((primaryMerge rows ms).map (updRow ms))).length = rows.length ∧
      ∀ (i : Nat) (h1 : i < rows.length)
        (h2 : i < (dropDupAux seen ((primaryMerge rows ms).map (updRow ms))).length),
        ((dropDupAux seen ((primaryMerge rows ms).map (updRow ms))).get ⟨i, h2⟩).src
          = rows.get ⟨i, h1⟩ := by
  intro rows
  induction rows with
  | nil =>
    intro seen _ _
    constructor
    · rfl
    · intro i h1 h2
      exact absurd h1 (by simp)
  | cons r rest ih =>
    intro seen hpw hseen
    have hpm : primaryMerge (r :: rest) ms = leftJoinPrimary ms r ++ primaryMerge rest ms := rfl
    rcases List.exists_cons_of_ne_nil (leftJoinPrimary_ne_nil ms r) with ⟨y, ys, hy⟩
    have hysrc : ∀ x ∈ leftJoinPrimary ms r, x.src = r := leftJoinPrimary_src ms r
    have hkey_y : natKey3 (updRow ms y).src = natKey3 r := by
      rw [updRow_src, hysrc y (hy ▸ List.mem_cons_self _ _)]
    have hmap : (primaryMerge (r :: rest) ms).map (updRow ms)
        = updRow ms y :: (ys.map (updRow ms) ++ (primaryMerge rest ms).map (updRow ms)) := by
      rw [hpm, hy]
      simp [List.map_append]
    rw [hmap]
    have hknot : natKey3 (updRow ms y).src ∉ seen := by
      rw [hkey_y]
      exact hseen r (List.mem_cons_self _ _)
    rw [dropDupAux, if_neg hknot]
    have hskip : dropDupAux (natKey3 (updRow ms y).src :: seen)
        (ys.map (updRow ms) ++ (primaryMerge rest ms).map (updRow ms))
        = dropDupAux (natKey3 (updRow ms y).src :: seen)
            ((primaryMerge rest ms).map (updRow ms)) := by
      apply dropDupAux_skip
      intro x hx
      rcases List.mem_map.mp hx with ⟨z, hz, hzx⟩
      have hzr : z.src = r := hysrc z (hy ▸ List.mem_cons_of_mem _ hz)
      have hxkey : natKey3 (updRow ms z).src = natKey3 (updRow ms y).src := by
        rw [updRow_src, updRow_src, hzr, hysrc y (hy ▸ List.mem_cons_self _ _)]
      rw [← hzx, hxkey]
      exact List.mem_cons_self _ _
    rw [hskip]
    have hrest := ih (natKey3 (updRow ms y).src :: seen)
      (List.pairwise_cons.mp hpw).2
      (by
        intro r' hr'
        rw [hkey_y]
        intro hcon
        rcases List.mem_cons.mp hcon with h1 | h1
        · exact (List.pairwise_cons.mp hpw).1 r' hr' h1.symm
        · exact hseen r' (List.mem_cons_of_mem _ hr') h1)
    constructor
    · simp [hrest.1]
    · intro i h1 h2
      cases i with
      | zero =>
        simp only [List.get_eq_getElem, List.getElem_cons_zero]
        rw [updRow_src]
        exact hysrc y (hy ▸ List.mem_cons_self _ _)
      | succ j =>
        simp only [List.get_eq_getElem, List.getElem_cons_succ]
        have hj1 : j < rest.length := by simpa using h1
        have hj2 : j < (dropDupAux (natKey3 (updRow ms y).src :: seen)
            ((primaryMerge rest ms).map (updRow ms))).length := by
          simpa using h2
        have := hrest.2 j hj1 hj2
        simpa using this

def tM3 : NbaRow := ⟨30, "Abc", "Def", 2000, 3, 9, none, none, false, none⟩

def tM4 : NbaRow := ⟨40, "Abc", "Def", 2000, 4, 9, none, none, false, none⟩

/-- C2 counterexample: a master table with two rows that both match the one
(structurally unmatched) input row on (treated name, year) makes the
positional fallback write-back fail — pandas raises a length-mismatch
ValueError — so the resolver produces no output at all instead of exactly
one EnrichedRecord for the input row. -/
theorem c2_counterexample :
    resolveTeam [tR] [tM3, tM4] (fun _ => none) = none ∧ [tR].length = 1 :=
  ⟨by decide, rfl⟩

theorem applyCountryMap_src (cmap : String → Option String) (row : MergedRow) :
    (applyCountryMap cmap row).src = row.src := rfl

theorem updRow_of_null {ms : List NbaRow} {z : MergedRow}
    (h : (updRow ms z).nba_id = none) : updRow ms z = setVals z fbNull := by
  unfold updRow at h ⊢
  by_cases hu : isUnmatched z = true
  · rw [if_pos hu] at h ⊢
    cases hfb : fallbackMatches ms z with
    | nil => rfl
    | cons m rest =>
      rw [hfb] at h
      simp [setVals, fbVals] at h
  · have hu' : isUnmatched z = false := by simpa using hu
    rw [hu'] at h
    simp only [Bool.false_eq_true, if_false] at h
    unfold isUnmatched at hu'
    rw [h] at hu'
    simp at hu'

/-- C2 (amended): whenever the resolver run completes — it aborts with no
output at all when some unmatched row has two or more fallback candidates —
and the input rows carry pairwise distinct natural keys, every input
DraftRecord yields exactly one EnrichedRecord, positionally derived from it;
a row unmatched after both passes is retained with null identity and
enrichment fields, and no input row is dropped. -/
theorem c2_exactly_one_record_per_input (rows : List CsvRow) (ms : List NbaRow)
    (cmap : String → Option String) (out : List MergedRow)
    (hkeys : rows.Pairwise (fun a b => natKey3 a ≠ natKey3 b))
    (h : resolveTeam rows ms cmap = some out) :
    out.length = rows.length ∧
    (∀ (i : Nat) (h1 : i < rows.length) (h2 : i < out.length),
      (out.get ⟨i, h2⟩).src = rows.get ⟨i, h1⟩) ∧
    (∀ x ∈ out, x.nba_id = none →
      x.COUNTRY = none ∧ x.TO_YEAR = none ∧ x.IS_DEFUNCT = none ∧ x.real_team = none) := by
  unfold resolveTeam at h
  cases hf : fallbackStep ms (primaryMerge rows ms) with
  | none => rw [hf] at h; exact absurd h (by simp)
  | some updated =>
    rw [hf] at h
    simp only [Option.some.injEq] at h
    have hupd := fallbackStep_some_eq hf
    subst hupd
    subst h
    have hcore := resolverCore ms rows [] hkeys (by simp)
    unfold drop_duplicates
    refine ⟨?_, ?_, ?_⟩
    · rw [List.length_map]
      exact hcore.1
    · intro i h1 h2
      rw [List.length_map] at h2
      simp only [List.get_eq_getElem, List.getElem_map]
      have := hcore.2 i h1 h2
      simpa [applyCountryMap_src] using this
    · intro x hx hnull
      rcases List.mem_map.mp hx with ⟨d, hd, hdx⟩
      have hd2 := mem_dropDupAux _ _ hd
      rcases List.mem_map.mp hd2 with ⟨z, _, hz⟩
      have hdnull : d.nba_id = none := by
        rw [← hdx] at hnull
        simpa [applyCountryMap] using hnull
      have : d = setVals z fbNull := by
        rw [← hz]
        exact updRow_of_null (hz ▸ hdnull)
      subst this
      rw [← hdx]
      simp [applyCountryMap, setVals, fbNull]

def tRn : CsvRow := ⟨"Nobody Q", "TT", 2001, 2, 7⟩

def c2cmap : String → Option String :=
  fun s => if s = "United States" then some "US" else none

def c2elt : MergedRow := ⟨tR, "Abc Def", some 10, some "US", some 2010, some false, some "X"⟩

def c2nul : MergedRow := ⟨tRn, "Nobody Q", none, none, none, none, none⟩

theorem c2_witness :
    ([tR, tRn].Pairwise (fun a b => natKey3 a ≠ natKey3 b)) ∧
    resolveTeam [tR, tRn] [tM1, tM2] c2cmap = some [c2elt, c2nul] ∧
    ([c2elt, c2nul] : List MergedRow).length = [tR, tRn].length ∧
    (([c2elt, c2nul] : List MergedRow).get ⟨1, by decide⟩).src = [tR, tRn].get ⟨1, by decide⟩ :=
  ⟨by decide, by decide,
   (c2_exactly_one_record_per_input [tR, tRn] [tM1, tM2] c2cmap _ (by decide) (by decide)).1,
   (c2_exactly_one_record_per_input [tR, tRn] [tM1, tM2] c2cmap _ (by decide) (by decide)).2.1
     1 (by decide) (by decide)⟩

theorem natKey4_eq_imp {r1 r2 : CsvRow} (h : natKey4 r1 = natKey4 r2) :
    natKey3 r1 = natKey3 r2 := by
  unfold natKey4 at h
  unfold natKey3
  simp only [Prod.mk.injEq] at h ⊢
  exact ⟨h.2.1, h.2.2.1, h.2.2.2⟩

theorem countP_key_eq_one {α β : Type} [DecidableEq β] (key : α → β) :
    ∀ (l : List α), l.Pairwise (fun a b => key a ≠ key b) →
      ∀ x ∈ l, l.countP (fun y => decide (key y = key x)) = 1 := by
  intro l
  induction l with
  | nil => intro _ x hx; simp at hx
  | cons a as ih =>
    intro hp x hx
    rcases List.pairwise_cons.mp hp with ⟨ha, has⟩
    rw [List.countP_cons]
    rcases List.mem_cons.mp hx with h1 | h1
    · subst h1
      have h0 : as.countP (fun y => decide (key y = key x)) = 0 := by
        rw [List.countP_eq_zero]
        intro y hy
        simp only [decide_eq_true_eq]
        intro hc
        exact ha y hy hc.symm
      simp [h0]
    · have hax : (decide (key a = key x)) = false := by
        simp only [decide_eq_false_iff_not]
        exact ha x h1
      rw [hax]
      simpa using ih has x h1

/-- C3: after post-processing, the natural key (team, year, round, pick)
occurs exactly once in the resolver output: duplicates on the key are
dropped keeping the first occurrence, so for every row of the produced
output the number of output rows sharing its natural key is exactly 1. -/
theorem c3_natural_key_unique_in_output (rows : List CsvRow) (ms : List NbaRow)
    (cmap : String → Option String) (out : List MergedRow)
    (h : resolveTeam rows ms cmap = some out) :
    ∀ x ∈ out, out.countP (fun y => decide (natKey4 y.src = natKey4 x.src)) = 1 := by
  unfold resolveTeam at h
  cases hf : fallbackStep ms (primaryMerge rows ms) with
  | none => rw [hf] at h; exact absurd h (by simp)
  | some updated =>
    rw [hf] at h
    simp only [Option.some.injEq] at h
    subst h
    have hpw3 : (drop_duplicates updated).Pairwise
        (fun a b => natKey3 a.src ≠ natKey3 b.src) := dropDupAux_pairwise _ _
    have hpw4 : ((drop_duplicates updated).map (applyCountryMap cmap)).Pairwise
        (fun a b => natKey4 a.src ≠ natKey4 b.src) := by
      rw [List.pairwise_map]
      refine hpw3.imp ?_
      intro a b h3
      simp only [applyCountryMap_src]
      intro h4
      exact h3 (natKey4_eq_imp h4)
    exact countP_key_eq_one (fun y : MergedRow => natKey4 y.src) _ hpw4

def tRdup : CsvRow := ⟨"Other Guy", "TT", 2000, 1, 5⟩

theorem c3_witness :
    resolveTeam [tR, tRdup] [tM1, tM2] c2cmap = some [c2elt] ∧
    ([c2elt] : List MergedRow).countP
      (fun y => decide (natKey4 y.src = natKey4 c2elt.src)) = 1 :=
  ⟨by decide,
   c3_natural_key_unique_in_output [tR, tRdup] [tM1, tM2] c2cmap [c2elt] (by decide)
     c2elt (by decide)⟩

/-! ### Award Enricher (`get_award_data.main`)

One team iteration of `get_award_data.main`: a persisted enriched CSV is
loaded; a team whose frame already has an `awards` column is skipped unless
`force_all` is set; per-row eligibility is decided from `nba_id`, `YOS` and
(unless `force`) emptiness of the existing `awards` cell; one network fetch
runs per distinct eligible id; the awards column is written back and the
file is rewritten only after the whole loop has finished, so a fetch
exception aborts the team with the file untouched.

The network fetch (`get_award_data`, `requests` plus page scraping) is an
external collaborator, modelled as a function into `Except`: `Except.ok`
carries the award-name/count pairs scraped from the page (empty when the
awards region is absent), `Except.error` a raised exception. `json.loads`
is likewise a collaborator, modelled as a function returning the shape of
the parsed value — a dict or list with its length, or anything else — with
`none` for a parse failure. -/

/-- The shape of a parsed JSON value, which is all `_is_award_empty` reads:
a dict of a given size, a list of a given size, or any other value. -/
inductive JsonShape where
  | jdict (n : Nat)
  | jlist (n : Nat)
  | jother
deriving DecidableEq

/-- A cell of the `awards` column: NaN/missing, a string, an in-memory dict
(award name to count), an in-memory list, or any other scalar. -/
inductive AwardVal where
  | na
  | str (s : String)
  | dict (entries : List (String × Int))
  | lst (n : Nat)
  | other
deriving DecidableEq

/-- The `_is_award_empty` predicate of `get_award_data.main`: NaN is empty; a
dict or list is empty when its length is 0; a string is stripped, then empty
when blank or (case-insensitively) "nan", else when it parses as an empty
dict or list via `json.loads`; a parse failure or any other parse result
means not empty; any other value is not empty. -/
def is_award_empty (jp : String → Option JsonShape) : AwardVal → Bool
  | AwardVal.na => true
  | AwardVal.dict entries => entries.isEmpty
  | AwardVal.lst n => n == 0
  | AwardVal.str val =>
    let s := pyStrip val.data
    if s.isEmpty || pyLower s == "nan".data then true
    else
      match jp s.asString with
      | some (JsonShape.jdict 0) => true
      | some (JsonShape.jlist 0) => true
      | _ => false
  | AwardVal.other => false

/-- One row of a persisted enriched team CSV as `main` reads it: `nba_id`
and `YOS` after `pd.to_numeric(errors="coerce")` (`none` is NaN), and the
`awards` cell. -/
structure ARow where
  nba_id : Option Int
  YOS : Option Int
  awards : AwardVal
deriving DecidableEq

/-- A persisted enriched team CSV: whether the frame has an `awards` column,
and its rows (whose `awards` field is meaningful only when the column
exists). -/
structure TeamCsv where
  hasAwards : Bool
  rows : List ARow
deriving DecidableEq

/-- The awards value a row effectively carries on disk: its cell when the
column exists, otherwise missing. -/
def effAward (hasAwards : Bool) (r : ARow) : AwardVal :=
  if hasAwards then r.awards else AwardVal.na

/-- The per-row `mask_empty_awards` value: when the `awards` column exists
and `force` is false, emptiness of the cell; otherwise True. -/
def maskEmptyRow (jp : String → Option JsonShape) (force hasAwards : Bool) (r : ARow) : Bool :=
  if hasAwards && !force then is_award_empty jp r.awards else true

/-- The per-row `valid_mask` value: `nba_id` present, `YOS` (NaN filled with
0) non-zero, and the empty-awards mask. -/
def rowValid (jp : String → Option JsonShape) (force hasAwards : Bool) (r : ARow) : Bool :=
  r.nba_id.isSome && (r.YOS.getD 0 != 0) && maskEmptyRow jp force hasAwards r

/-- `pandas.Series.unique`: first occurrence of each value, in order; `seen`
accumulates values already emitted. -/
def dedupFirst : List Int → List Int → List Int
  | _, [] => []
  | seen, x :: xs =>
    if x ∈ seen then dedupFirst seen xs else x :: dedupFirst (x :: seen) xs

/-- `valid_ids = nba_id_series[valid_mask].dropna().unique()`: the distinct
ids of eligible rows, in first-occurrence order. -/
def validIds (jp : String → Option JsonShape) (force : Bool) (t : TeamCsv) : List Int :=
  dedupFirst [] (t.rows.filterMap
    (fun r => if rowValid jp force t.hasAwards r then r.nba_id else none))

/-- The fetch loop `for nba_id in valid_ids: award_data = get_award_data(...)`:
returns the ids actually fetched (in order, stopping at the first raised
exception) and either the accumulated award map — ids whose fetch produced
no awards are skipped — or the propagated error. -/
def fetchLoop {E : Type} (fetch : Int → Except E (List (String × Int))) :
    List Int → List Int × Except E (List (Int × List (String × Int)))
  | [] => ([], Except.ok [])
  | pid :: rest =>
    match fetch pid with
    | Except.error e => ([pid], Except.error e)
    | Except.ok d =>
      match fetchLoop fetch rest with
      | (tr, Except.error e) => (pid :: tr, Except.error e)
      | (tr, Except.ok m) => (pid :: tr, Except.ok (if d.isEmpty then m else (pid, d) :: m))

/-- `new_awards = nba_id_series.where(valid_mask).map(award_map)`: the value
written into an updated cell — the fetched dict for a valid row whose id is
in the award map, NaN otherwise. -/
def newAward (jp : String → Option JsonShape) (force hasAwards : Bool)
    (amap : List (Int × List (String × Int))) (r : ARow) : AwardVal :=
  if rowValid jp force hasAwards r then
    match r.nba_id with
    | some pid =>
      match amap.lookup pid with
      | some d => AwardVal.dict d
      | none => AwardVal.na
    | none => AwardVal.na
  else AwardVal.na

/-- The write-back of one row: under `force` the whole column is replaced
(`curr_df["awards"] = new_awards`), otherwise only rows selected by the
empty-awards mask are overwritten
(`curr_df.loc[mask_empty_awards, "awards"] = new_awards[mask_empty_awards]`). -/
def rowWrite (jp : String → Option JsonShape) (force hasAwards : Bool)
    (amap : List (Int × List (String × Int))) (r : ARow) : ARow :=
  if force then { r with awards := newAward jp force hasAwards amap r }
  else if maskEmptyRow jp force hasAwards r then
    { r with awards := newAward jp force hasAwards amap r }
  else r

/-- The write-back over the whole frame. -/
def writeBack (jp : String → Option JsonShape) (force hasAwards : Bool)
    (amap : List (Int × List (String × Int))) (rows : List ARow) : List ARow :=
  rows.map (rowWrite jp force hasAwards amap)

/-- One team iteration of `get_award_data.main`: skip when the `awards`
column exists and `force_all` is false; otherwise fetch once per distinct
eligible id and write the column back (the frame then has an `awards`
column). The first component is the list of ids actually fetched; an
`Except.error` result models the fetch exception propagating before
`to_csv` runs. -/
def processTeam {E : Type} (fetch : Int → Except E (List (String × Int)))
    (jp : String → Option JsonShape) (force force_all : Bool) (t : TeamCsv) :
    List Int × Except E TeamCsv :=
  if t.hasAwards && !force_all then ([], Except.ok t)
  else
    match fetchLoop fetch (validIds jp force t) with
    | (tr, Except.error e) => (tr, Except.error e)
    | (tr, Except.ok amap) =>
      (tr, Except.ok ⟨true, writeBack jp force t.hasAwards amap t.rows⟩)

/-- The on-disk state after one team iteration: the new frame when the run
completed (`to_csv` rewrote the file), the old frame when it raised. -/
def runTeamDisk {E : Type} (fetch : Int → Except E (List (String × Int)))
    (jp : String → Option JsonShape) (force force_all : Bool) (t : TeamCsv) : TeamCsv :=
  match processTeam fetch jp force force_all t with
  | (_, Except.ok t2) => t2
  | (_, Except.error _) => t

/-! ### The specification side of the eligibility rule (claim C5) -/

/-- Spec wording: "an empty or whitespace-only string". -/
def isWsOnly (s : String) : Bool :=
  s.data.all isPySpace

/-- Spec wording: "a string that parses as an empty structured value"
(and a string that fails to parse is not empty). -/
def parsesEmptyStructured (jp : String → Option JsonShape) (s : String) : Bool :=
  match jp (pyStrip s.data).asString with
  | some (JsonShape.jdict 0) => true
  | some (JsonShape.jlist 0) => true
  | _ => false

/-- The emptiness notion exactly as claim C5 words it, reading "the literal
text nan" literally: missing, an empty structured value, an empty or
whitespace-only string, the exact text "nan" (up to surrounding
whitespace), or a string that parses as an empty structured value. -/
def specAwardEmptyLiteral (jp : String → Option JsonShape) : AwardVal → Bool
  | AwardVal.na => true
  | AwardVal.dict entries => entries.isEmpty
  | AwardVal.lst n => n == 0
  | AwardVal.other => false
  | AwardVal.str s =>
    isWsOnly s || pyStrip s.data == "nan".data || parsesEmptyStructured jp s

/-- The emptiness notion of claim C5 amended at its "nan" clause: the text
"nan" is matched in any letter case (after trimming whitespace). -/
def specAwardEmpty (jp : String → Option JsonShape) : AwardVal → Bool
  | AwardVal.na => true
  | AwardVal.dict entries => entries.isEmpty
  | AwardVal.lst n => n == 0
  | AwardVal.other => false
  | AwardVal.str s =>
    isWsOnly s || pyLower (pyStrip s.data) == "nan".data || parsesEmptyStructured jp s

/-- Eligibility exactly as claim C5 words it: id present, years of service
present and non-zero, and (when not forcing) the effective award value empty
in the literal sense. -/
def specEligibleLiteral (jp : String → Option JsonShape) (force hasAwards : Bool)
    (r : ARow) : Bool :=
  r.nba_id.isSome
    && (match r.YOS with | some y => y != 0 | none => false)
    && (force || specAwardEmptyLiteral jp (effAward hasAwards r))

/-- Eligibility as claim C5 amended ("nan" matched in any case). -/
def specEligible (jp : String → Option JsonShape) (force hasAwards : Bool)
    (r : ARow) : Bool :=
  r.nba_id.isSome
    && (match r.YOS with | some y => y != 0 | none => false)
    && (force || specAwardEmpty jp (effAward hasAwards r))

/-! ### Facts about the fetch loop and id de-duplication -/

theorem mem_dedupFirst {x : Int} :
    ∀ (l seen : List Int), x ∈ dedupFirst seen l → x ∈ l := by
  intro l
  induction l with
  | nil => intro seen h; simp [dedupFirst] at h
  | cons y ys ih =>
    intro seen h
    rw [dedupFirst] at h
    by_cases hy : y ∈ seen
    · rw [if_pos hy] at h
      exact List.mem_cons_of_mem _ (ih seen h)
    · rw [if_neg hy] at h
      rcases List.mem_cons.mp h with h1 | h1
      · exact h1 ▸ List.mem_cons_self _ _
      · exact List.mem_cons_of_mem _ (ih _ h1)

theorem dedupFirst_notMem_seen {x : Int} :
    ∀ (l seen : List Int), x ∈ dedupFirst seen l → x ∉ seen := by
  intro l
  induction l with
  | nil => intro seen h; simp [dedupFirst] at h
  | cons y ys ih =>
    intro seen h
    rw [dedupFirst] at h
    by_cases hy : y ∈ seen
    · rw [if_pos hy] at h
      exact ih seen h
    · rw [if_neg hy] at h
      rcases List.mem_cons.mp h with h1 | h1
      · exact h1 ▸ hy
      · intro hc
        exact ih _ h1 (List.mem_cons_of_mem _ hc)

theorem mem_dedupFirst_of {x : Int} :
    ∀ (l seen : List Int), x ∈ l → x ∉ seen → x ∈ dedupFirst seen l := by
  intro l
  induction l with
  | nil => intro seen h _; simp at h
  | cons y ys ih =>
    intro seen hx hseen
    rw [dedupFirst]
    by_cases hy : y ∈ seen
    · rw [if_pos hy]
      rcases List.mem_cons.mp hx with h1 | h1
      · exact absurd (h1 ▸ hy) hseen
      · exact ih seen h1 hseen
    · rw [if_neg hy]
      by_cases hxy : x = y
      · exact hxy ▸ List.mem_cons_self _ _
      · rcases List.mem_cons.mp hx with h1 | h1
        · exact absurd h1 hxy
        · refine List.mem_cons_of_mem _ (ih _ h1 ?_)
          intro hc
          rcases List.mem_cons.mp hc with h2 | h2
          · exact hxy h2
          · exact hseen h2

theorem dedupFirst_nodup : ∀ (l seen : List Int), (dedupFirst seen l).Nodup := by
  intro l
  induction l with
  | nil => intro seen; simp [dedupFirst]
  | cons y ys ih =>
    intro seen
    rw [dedupFirst]
    by_cases hy : y ∈ seen
    · rw [if_pos hy]; exact ih seen
    · rw [if_neg hy]
      refine List.nodup_cons.mpr ⟨?_, ih _⟩
      intro hc
      exact dedupFirst_notMem_seen _ _ hc (List.mem_cons_self _ _)

theorem mem_validIds_iff {jp : String → Option JsonShape} {force : Bool}
    {t : TeamCsv} {pid : Int} :
    pid ∈ validIds jp force t ↔
      ∃ r ∈ t.rows, rowValid jp force t.hasAwards r = true ∧ r.nba_id = some pid := by
  constructor
  · intro h
    have h1 := mem_dedupFirst _ _ h
    rcases List.mem_filterMap.mp h1 with ⟨r, hr, hval⟩
    by_cases hv : rowValid jp force t.hasAwards r = true
    · rw [if_pos hv] at hval
      exact ⟨r, hr, hv, hval⟩
    · rw [if_neg hv] at hval
      simp at hval
  · rintro ⟨r, hr, hval, hid⟩
    apply mem_dedupFirst_of
    · exact List.mem_filterMap.mpr ⟨r, hr, by rw [if_pos hval, hid]⟩
    · simp

theorem validIds_nodup (jp : String → Option JsonShape) (force : Bool) (t : TeamCsv) :
    (validIds jp force t).Nodup :=
  dedupFirst_nodup _ _

theorem fetchLoop_ok_trace {E : Type} {fetch : Int → Except E (List (String × Int))} :
    ∀ {ids tr : List Int} {m : List (Int × List (String × Int))},
      fetchLoop fetch ids = (tr, Except.ok m) → tr = ids := by
  intro ids
  induction ids with
  | nil =>
    intro tr m h
    simpa [fetchLoop] using congrArg Prod.fst h
  | cons pid rest ih =>
    intro tr m h
    rw [fetchLoop] at h
    cases hf : fetch pid with
    | error e => rw [hf] at h; simp at h
    | ok d =>
      rw [hf] at h
      cases hrec : fetchLoop fetch rest with
      | mk tr2 res =>
        rw [hrec] at h
        cases res with
        | error e => simp at h
        | ok m2 =>
          simp only [Prod.mk.injEq] at h
          rw [← h.1, ih hrec]

theorem fetchLoop_trace_subset {E : Type} {fetch : Int → Except E (List (String × Int))} :
    ∀ (ids : List Int), ∀ x ∈ (fetchLoop fetch ids).1, x ∈ ids := by
  intro ids
  induction ids with
  | nil => intro x h; simp [fetchLoop] at h
  | cons pid rest ih =>
    intro x h
    rw [fetchLoop] at h
    cases hf : fetch pid with
    | error e =>
      rw [hf] at h
      simp only [List.mem_singleton] at h
      exact h ▸ List.mem_cons_self _ _
    | ok d =>
      rw [hf] at h
      cases hrec : fetchLoop fetch rest with
      | mk tr2 res =>
        rw [hrec] at h
        have htr2 : ∀ y ∈ tr2, y ∈ rest := by
          intro y hy
          exact ih y (by rw [hrec]; exact hy)
        cases res with
        | error e =>
          rcases List.mem_cons.mp h with h1 | h1
          · exact h1 ▸ List.mem_cons_self _ _
          · exact List.mem_cons_of_mem _ (htr2 x h1)
        | ok m2 =>
          rcases List.mem_cons.mp h with h1 | h1
          · exact h1 ▸ List.mem_cons_self _ _
          · exact List.mem_cons_of_mem _ (htr2 x h1)

theorem fetchLoop_trace_nodup {E : Type} {fetch : Int → Except E (List (String × Int))} :
    ∀ (ids : List Int), ids.Nodup → (fetchLoop fetch ids).1.Nodup := by
  intro ids
  induction ids with
  | nil => intro _; simp [fetchLoop]
  | cons pid rest ih =>
    intro hnd
    rcases List.nodup_cons.mp hnd with ⟨hpid, hrest⟩
    rw [fetchLoop]
    cases hf : fetch pid with
    | error e => simp
    | ok d =>
      cases hrec : fetchLoop fetch rest with
      | mk tr2 res =>
        have htr2 : tr2.Nodup := by
          have := ih hrest
          rw [hrec] at this
          exact this
        have hsub : ∀ y ∈ tr2, y ∈ rest := by
          intro y hy
          have := @fetchLoop_trace_subset E fetch rest y
          rw [hrec] at this
          exact this hy
        cases res with
        | error e =>
          exact List.nodup_cons.mpr ⟨fun hc => hpid (hsub pid hc), htr2⟩
        | ok m2 =>
          exact List.nodup_cons.mpr ⟨fun hc => hpid (hsub pid hc), htr2⟩

theorem fetchLoop_error_of_mem {E : Type} {fetch : Int → Except E (List (String × Int))} :
    ∀ (ids : List Int) (pid : Int) (e : E), pid ∈ ids → fetch pid = Except.error e →
      ∃ e2, (fetchLoop fetch ids).2 = Except.error e2 := by
  intro ids
  induction ids with
  | nil => intro pid e h _; simp at h
  | cons q rest ih =>
    intro pid e hmem herr
    rw [fetchLoop]
    cases hf : fetch q with
    | error e2 => exact ⟨e2, rfl⟩
    | ok d =>
      rcases List.mem_cons.mp hmem with h1 | h1
      · rw [h1] at herr
        rw [herr] at hf
        exact absurd hf (by simp)
      · rcases ih pid e h1 herr with ⟨e2, he2⟩
        cases hrec : fetchLoop fetch rest with
        | mk tr2 res =>
          rw [hrec] at he2
          simp only at he2
          cases res with
          | error e3 =>
            exact ⟨e3, by simp⟩
          | ok m2 => simp at he2

theorem fetchLoop_ok_fetch_ok {E : Type} {fetch : Int → Except E (List (String × Int))} :
    ∀ {ids tr : List Int} {m : List (Int × List (String × Int))},
      fetchLoop fetch ids = (tr, Except.ok m) →
      ∀ pid ∈ ids, ∃ d, fetch pid = Except.ok d := by
  intro ids
  induction ids with
  | nil => intro tr m _ pid h; simp at h
  | cons q rest ih =>
    intro tr m h pid hmem
    rw [fetchLoop] at h
    cases hf : fetch q with
    | error e => rw [hf] at h; simp at h
    | ok d =>
      rw [hf] at h
      cases hrec : fetchLoop fetch rest with
      | mk tr2 res =>
        rw [hrec] at h
        cases res with
        | error e => simp at h
        | ok m2 =>
          rcases List.mem_cons.mp hmem with h1 | h1
          · exact ⟨d, h1 ▸ hf⟩
          · exact ih hrec pid h1

theorem lookup_none_of_no_key :
    ∀ (m : List (Int × List (String × Int))) (pid : Int),
      (∀ pr ∈ m, pr.1 ≠ pid) → m.lookup pid = none := by
  intro m
  induction m with
  | nil => intro pid _; rfl
  | cons pr rest ih =>
    intro pid hall
    have hne : pr.1 ≠ pid := hall pr (List.mem_cons_self _ _)
    have hbeq : (pid == pr.1) = false := by
      simp only [beq_eq_false_iff_ne]
      exact fun hc => hne hc.symm
    cases pr with
    | mk k v =>
      simp only at hbeq
      rw [List.lookup, hbeq]
      exact ih pid (fun q hq => hall q (List.mem_cons_of_mem _ hq))

theorem fetchLoop_ok_keys {E : Type} {fetch : Int → Except E (List (String × Int))} :
    ∀ {ids tr : List Int} {m : List (Int × List (String × Int))},
      fetchLoop fetch ids = (tr, Except.ok m) → ∀ pr ∈ m, pr.1 ∈ ids := by
  intro ids
  induction ids with
  | nil =>
    intro tr m h pr hpr
    have : m = [] := by simpa [fetchLoop] using congrArg Prod.snd h
    rw [this] at hpr
    simp at hpr
  | cons q rest ih =>
    intro tr m h pr hpr
    rw [fetchLoop] at h
    cases hf : fetch q with
    | error e => rw [hf] at h; simp at h
    | ok dq =>
      rw [hf] at h
      cases hrec : fetchLoop fetch rest with
      | mk tr2 res =>
        rw [hrec] at h
        cases res with
        | error e => simp at h
        | ok m2 =>
          simp only [Prod.mk.injEq, Except.ok.injEq] at h
          have hm : m = if dq.isEmpty then m2 else (q, dq) :: m2 := h.2.symm
          by_cases hde : dq.isEmpty
          · rw [if_pos hde] at hm
            subst hm
            exact List.mem_cons_of_mem _ (ih hrec pr hpr)
          · rw [if_neg hde] at hm
            subst hm
            rcases List.mem_cons.mp hpr with h1 | h1
            · rw [h1]
              exact List.mem_cons_self _ _
            · exact List.mem_cons_of_mem _ (ih hrec pr h1)

theorem fetchLoop_ok_lookup {E : Type} {fetch : Int → Except E (List (String × Int))} :
    ∀ {ids tr : List Int} {m : List (Int × List (String × Int))},
      ids.Nodup → fetchLoop fetch ids = (tr, Except.ok m) →
      ∀ (pid : Int) (d : List (String × Int)), pid ∈ ids → fetch pid = Except.ok d →
        m.lookup pid = (if d.isEmpty then none else some d) := by
  intro ids
  induction ids with
  | nil => intro tr m _ _ pid d h _; simp at h
  | cons q rest ih =>
    intro tr m hnd h pid d hmem hfetch
    rcases List.nodup_cons.mp hnd with ⟨hq, hndr⟩
    rw [fetchLoop] at h
    cases hf : fetch q with
    | error e => rw [hf] at h; simp at h
    | ok dq =>
      rw [hf] at h
      cases hrec : fetchLoop fetch rest with
      | mk tr2 res =>
        rw [hrec] at h
        cases res with
        | error e => simp at h
        | ok m2 =>
          simp only [Prod.mk.injEq, Except.ok.injEq] at h
          have hm : m = if dq.isEmpty then m2 else (q, dq) :: m2 := h.2.symm
          by_cases hqp : q = pid
          · subst hqp
            rw [hfetch] at hf
            have hd : d = dq := by simpa using hf
            subst hd
            by_cases hde : d.isEmpty
            · rw [if_pos hde] at hm
              subst hm
              rw [if_pos hde]
              apply lookup_none_of_no_key
              intro pr hpr hc
              exact hq (hc ▸ fetchLoop_ok_keys hrec pr hpr)
            · rw [if_neg hde] at hm
              subst hm
              rw [if_neg hde]
              have : (q == q) = true := by simp
              rw [List.lookup, this]
          · have hmemr : pid ∈ rest := by
              rcases List.mem_cons.mp hmem with h1 | h1
              · exact absurd h1.symm hqp
              · exact h1
            have hbeq : (pid == q) = false := by
              simp only [beq_eq_false_iff_ne]
              exact fun hc => hqp hc.symm
            by_cases hde : dq.isEmpty
            · rw [if_pos hde] at hm
              subst hm
              exact ih hndr hrec pid d hmemr hfetch
            · rw [if_neg hde] at hm
              subst hm
              rw [List.lookup, hbeq]
              exact ih hndr hrec pid d hmemr hfetch

theorem processTeam_ok_destruct {E : Type} {fetch : Int → Except E (List (String × Int))}
    {jp : String → Option JsonShape} {force force_all : Bool} {t : TeamCsv}
    {tr : List Int} {t2 : TeamCsv}
    (hskip : (t.hasAwards && !force_all) = false)
    (hok : processTeam fetch jp force force_all t = (tr, Except.ok t2)) :
    ∃ amap, fetchLoop fetch (validIds jp force t) = (tr, Except.ok amap) ∧
      t2 = ⟨true, writeBack jp force t.hasAwards amap t.rows⟩ := by
  unfold processTeam at hok
  rw [hskip] at hok
  simp only [Bool.false_eq_true, if_false] at hok
  cases hfl : fetchLoop fetch (validIds jp force t) with
  | mk tr2 res =>
    rw [hfl] at hok
    cases res with
    | error e => simp at hok
    | ok amap =>
      simp only [Prod.mk.injEq, Except.ok.injEq] at hok
      refine ⟨amap, ?_, hok.2.symm⟩
      rw [hok.1]

/-- C4: the Award Enricher is idempotent under `force = false`: for a team
frame that already has an `awards` column, if `force_all` is false the team
is skipped outright, and if every row is populated (no row has an empty
awards value) the run fetches nothing; in both cases the fetch trace is
empty and the persisted frame is returned unchanged. -/
theorem c4_award_enricher_idempotent {E : Type}
    (fetch : Int → Except E (List (String × Int))) (jp : String → Option JsonShape)
    (force_all : Bool) (t : TeamCsv)
    (hA : t.hasAwards = true)
    (hfull : force_all = false ∨ ∀ r ∈ t.rows, is_award_empty jp r.awards = false) :
    processTeam fetch jp false force_all t = ([], Except.ok t) := by
  cases t with
  | mk ha rows =>
    simp only at hA
    subst hA
    cases force_all with
    | false =>
      unfold processTeam
      simp
    | true =>
      have hfull2 : ∀ r ∈ rows, is_award_empty jp r.awards = false := by
        rcases hfull with h | h
        · exact absurd h (by simp)
        · simpa using h
      have hmask : ∀ r ∈ rows, maskEmptyRow jp false true r = false := by
        intro r hr
        unfold maskEmptyRow
        simpa using hfull2 r hr
      have hvalid : ∀ r ∈ rows,
          rowValid jp false (TeamCsv.mk true rows).hasAwards r = false := by
        intro r hr
        unfold rowValid
        rw [hmask r hr]
        simp
      have hids : validIds jp false (TeamCsv.mk true rows) = [] := by
        unfold validIds
        have hfm : rows.filterMap
            (fun r => if rowValid jp false (TeamCsv.mk true rows).hasAwards r
              then r.nba_id else none) = [] := by
          rw [List.filterMap_eq_nil_iff]
          intro r hr
          rw [hvalid r hr]
          simp
        show dedupFirst [] (rows.filterMap _) = []
        rw [hfm]
        rfl
      have hwb : writeBack jp false true [] rows = rows := by
        unfold writeBack
        have hcongr : ∀ r ∈ rows, rowWrite jp false true [] r = r := by
          intro r hr
          unfold rowWrite
          rw [if_neg (by simp), if_neg (by simp [hmask r hr])]
        calc rows.map (rowWrite jp false true [])
            = rows.map id := List.map_congr_left hcongr
          _ = rows := List.map_id _
      unfold processTeam
      simp only [Bool.not_true, Bool.and_false, Bool.false_eq_true, if_false]
      rw [hids]
      show ([], Except.ok (⟨true, writeBack jp false true [] rows⟩ : TeamCsv))
        = ([], Except.ok (⟨true, rows⟩ : TeamCsv))
      rw [hwb]

def jpNone : String → Option JsonShape := fun _ => none

def c4fetch : Int → Except Unit (List (String × Int)) := fun _ => Except.error ()

def c4team : TeamCsv := ⟨true, [⟨some 1, some 3, AwardVal.dict [("MVP", 2)]⟩]⟩

theorem c4_witness :
    c4team.hasAwards = true ∧
    processTeam c4fetch jpNone false false c4team = ([], Except.ok c4team) ∧
    processTeam c4fetch jpNone false true c4team = ([], Except.ok c4team) :=
  ⟨rfl,
   c4_award_enricher_idempotent c4fetch jpNone false c4team rfl (Or.inl rfl),
   c4_award_enricher_idempotent c4fetch jpNone true c4team rfl (Or.inr (by decide))⟩

/-! ### C5: the eligibility rule against its specification wording -/

theorem dropWhile_all_iff (p : Char → Bool) (l : List Char) :
    (∀ x ∈ l.dropWhile p, p x = true) ↔ (∀ x ∈ l, p x = true) := by
  constructor
  · intro h x hx
    rw [← List.takeWhile_append_dropWhile (p := p) (l := l)] at hx
    rcases List.mem_append.mp hx with h1 | h1
    · exact List.mem_takeWhile_imp h1
    · exact h x h1
  · intro h x hx
    exact h x ((List.dropWhile_sublist _).subset hx)

theorem pyStrip_isEmpty_eq (l : List Char) :
    (pyStrip l).isEmpty = l.all isPySpace := by
  have hiff : pyStrip l = [] ↔ (∀ x ∈ l, isPySpace x = true) := by
    unfold pyStrip
    rw [List.reverse_eq_nil_iff, List.dropWhile_eq_nil_iff]
    constructor
    · intro h
      rw [← dropWhile_all_iff isPySpace l]
      intro x hx
      exact h x (List.mem_reverse.mpr hx)
    · intro h x hx
      exact (dropWhile_all_iff isPySpace l).mpr h x (List.mem_reverse.mp hx)
  cases hall : l.all isPySpace with
  | true =>
    rw [List.isEmpty_iff]
    exact hiff.mpr (List.all_eq_true.mp hall)
  | false =>
    by_contra hcon
    have h1 : (pyStrip l).isEmpty = true := by
      cases hq : (pyStrip l).isEmpty with
      | true => rfl
      | false => rw [hq] at hcon; exact absurd rfl hcon
    have h2 := hiff.mp (List.isEmpty_iff.mp h1)
    rw [List.all_eq_true.mpr h2] at hall
    exact absurd hall (by simp)

theorem is_award_empty_eq_spec (jp : String → Option JsonShape) (v : AwardVal) :
    is_award_empty jp v = specAwardEmpty jp v := by
  cases v with
  | na => rfl
  | dict entries => rfl
  | lst n => rfl
  | other => rfl
  | str s =>
    show (if (pyStrip s.data).isEmpty || pyLower (pyStrip s.data) == "nan".data
        then true
        else match jp (pyStrip s.data).asString with
          | some (JsonShape.jdict 0) => true
          | some (JsonShape.jlist 0) => true
          | _ => false)
      = (isWsOnly s || pyLower (pyStrip s.data) == "nan".data
          || parsesEmptyStructured jp s)
    rw [pyStrip_isEmpty_eq]
    unfold isWsOnly parsesEmptyStructured
    cases hA : s.data.all isPySpace with
    | true => simp [hA]
    | false =>
      cases hB : pyLower (pyStrip s.data) == "nan".data with
      | true => simp [hB]
      | false => simp [hB]

theorem maskEmptyRow_eq_spec (jp : String → Option JsonShape) (force hasAwards : Bool)
    (r : ARow) :
    maskEmptyRow jp force hasAwards r = (force || specAwardEmpty jp (effAward hasAwards r)) := by
  unfold maskEmptyRow effAward
  cases force with
  | true => simp
  | false =>
    cases hasAwards with
    | true =>
      simp only [Bool.not_false, Bool.and_true, if_true, Bool.false_or]
      exact is_award_empty_eq_spec jp r.awards
    | false => simp [specAwardEmpty]

/-- C5 (amended): a row is eligible for an award fetch if and only if its
resolved id is present, its years-of-service is present and non-zero, and —
when not forcing — its effective award value is empty in the sense of the
spec, with the "nan" text matched in any letter case after trimming; a
string that fails to parse is not empty. -/
theorem c5_eligibility_iff (jp : String → Option JsonShape) (force hasAwards : Bool)
    (r : ARow) :
    rowValid jp force hasAwards r = specEligible jp force hasAwards r := by
  unfold rowValid specEligible
  have h2 : (r.YOS.getD 0 != 0) = (match r.YOS with | some y => y != 0 | none => false) := by
    cases r.YOS with
    | none => rfl
    | some y => rfl
  rw [h2, maskEmptyRow_eq_spec]

def c5jp : String → Option JsonShape :=
  fun s => if s = "NaN" then some JsonShape.jother else none

def c5row : ARow := ⟨some 1, some 1, AwardVal.str "NaN"⟩

/-- C5 counterexample: the code lowercases the stripped cell before the
"nan" comparison, so the cell "NaN" is treated as empty and its row is
eligible, while the claim's emptiness enumeration — reading "the literal
text nan" literally — classifies "NaN" as not empty (it parses as a float,
not an empty structured value), making the row ineligible. -/
theorem c5_counterexample :
    rowValid c5jp false true c5row = true ∧
    specEligibleLiteral c5jp false true c5row = false :=
  ⟨by decide, by decide⟩

def c6row : ARow := ⟨none, some 1, AwardVal.str "nan"⟩

def c6team : TeamCsv := ⟨true, [c6row]⟩

/-- C6 counterexample: an ineligible row (no resolved id) whose awards cell
holds the text "nan" is inside the empty-awards mask, so the `force = false`
write-back overwrites its cell with NaN: the persisted cell changes from the
string "nan" to a missing value, refuting "every ineligible row keeps its
awards field exactly as it was on disk". -/
theorem c6_counterexample :
    rowValid jpNone false true c6row = false ∧
    processTeam c4fetch jpNone false true c6team
      = ([], Except.ok ⟨true, [⟨none, some 1, AwardVal.na⟩]⟩) ∧
    AwardVal.na ≠ AwardVal.str "nan" :=
  ⟨by decide, by rfl, by decide⟩

theorem maskEmptyRow_of_valid {jp : String → Option JsonShape} {force hasAwards : Bool}
    {r : ARow} (h : rowValid jp force hasAwards r = true) :
    maskEmptyRow jp force hasAwards r = true := by
  unfold rowValid at h
  simp only [Bool.and_eq_true] at h
  exact h.2

theorem rowWrite_of_valid {jp : String → Option JsonShape} {force hasAwards : Bool}
    {amap : List (Int × List (String × Int))} {r : ARow}
    (h : rowValid jp force hasAwards r = true) :
    rowWrite jp force hasAwards amap r
      = { r with awards := newAward jp force hasAwards amap r } := by
  unfold rowWrite
  cases force with
  | true => simp
  | false =>
    rw [if_neg (by simp), if_pos (maskEmptyRow_of_valid h)]

/-- C6 (amended): during the award write-back, an eligible row gets the
fetched value (null when the fetch produced no awards); when not forcing, a
row whose existing award value is non-empty is kept exactly as it was on
disk, while an ineligible row with an empty award value is overwritten with
null; when forcing, an ineligible row receives null; and every fetched id
comes from some eligible row, so a zero years-of-service row never triggers
a fetch attempt by itself. -/
theorem c6_writeback_frame {E : Type}
    (fetch : Int → Except E (List (String × Int))) (jp : String → Option JsonShape)
    (force force_all : Bool) (t : TeamCsv) (tr : List Int) (t2 : TeamCsv)
    (hskip : (t.hasAwards && !force_all) = false)
    (hok : processTeam fetch jp force force_all t = (tr, Except.ok t2)) :
    t2.rows.length = t.rows.length ∧
    (∀ (i : Nat) (h1 : i < t.rows.length) (h2 : i < t2.rows.length) (pid : Int)
        (d : List (String × Int)),
      rowValid jp force t.hasAwards t.rows[i] = true →
      (t.rows[i]).nba_id = some pid →
      fetch pid = Except.ok d →
      (t2.rows[i]).awards = (if d.isEmpty then AwardVal.na else AwardVal.dict d)) ∧
    (∀ (i : Nat) (h1 : i < t.rows.length) (h2 : i < t2.rows.length),
      force = false →
      is_award_empty jp (effAward t.hasAwards t.rows[i]) = false →
      t2.rows[i] = t.rows[i]) ∧
    (∀ (i : Nat) (h1 : i < t.rows.length) (h2 : i < t2.rows.length),
      force = false →
      rowValid jp force t.hasAwards t.rows[i] = false →
      is_award_empty jp (effAward t.hasAwards t.rows[i]) = true →
      (t2.rows[i]).awards = AwardVal.na) ∧
    (∀ (i : Nat) (h1 : i < t.rows.length) (h2 : i < t2.rows.length),
      force = true →
      rowValid jp force t.hasAwards t.rows[i] = false →
      (t2.rows[i]).awards = AwardVal.na) ∧
    (∀ pid ∈ tr, t.rows.any
      (fun r => rowValid jp force t.hasAwards r && r.nba_id == some pid) = true) := by
  rcases processTeam_ok_destruct hskip hok with ⟨amap, hfl, ht2⟩
  have hr2 : t2.rows = writeBack jp force t.hasAwards amap t.rows := by rw [ht2]
  have hget : ∀ (i : Nat) (h1 : i < t.rows.length) (h2 : i < t2.rows.length),
      t2.rows[i] = rowWrite jp force t.hasAwards amap t.rows[i] := by
    intro i h1 h2
    have h3 : i < (writeBack jp force t.hasAwards amap t.rows).length := by
      rw [← hr2]; exact h2
    rw [List.getElem_of_eq hr2 h2]
    unfold writeBack
    rw [List.getElem_map]
  refine ⟨by rw [hr2]; exact List.length_map _ _, ?_, ?_, ?_, ?_, ?_⟩
  · intro i h1 h2 pid d hval hid hfetch
    rw [hget i h1 h2, rowWrite_of_valid hval]
    show newAward jp force t.hasAwards amap t.rows[i]
      = (if d.isEmpty then AwardVal.na else AwardVal.dict d)
    unfold newAward
    rw [if_pos hval, hid]
    have hpidmem : pid ∈ validIds jp force t :=
      mem_validIds_iff.mpr ⟨t.rows[i], List.getElem_mem h1, hval, hid⟩
    have hlk := fetchLoop_ok_lookup (validIds_nodup jp force t) hfl pid d hpidmem hfetch
    show (match amap.lookup pid with
      | some d0 => AwardVal.dict d0
      | none => AwardVal.na) = (if d.isEmpty then AwardVal.na else AwardVal.dict d)
    rw [hlk]
    by_cases hde : d.isEmpty
    · rw [if_pos hde, if_pos hde]
    · rw [if_neg hde, if_neg hde]
  · intro i h1 h2 hforce hne
    subst hforce
    rw [hget i h1 h2]
    cases hA : t.hasAwards with
    | false =>
      rw [hA] at hne
      simp [effAward, is_award_empty] at hne
    | true =>
      rw [hA] at hne
      simp only [effAward, if_true] at hne
      unfold rowWrite
      rw [if_neg (by simp)]
      rw [if_neg (by unfold maskEmptyRow; simpa using hne)]
  · intro i h1 h2 hforce hinv hemp
    subst hforce
    rw [hget i h1 h2]
    have hmask : maskEmptyRow jp false t.hasAwards t.rows[i] = true := by
      unfold maskEmptyRow
      cases hA : t.hasAwards with
      | false => simp
      | true =>
        rw [hA] at hemp
        simpa [effAward] using hemp
    unfold rowWrite
    rw [if_neg (by simp), if_pos hmask]
    show newAward jp false t.hasAwards amap t.rows[i] = AwardVal.na
    unfold newAward
    rw [if_neg (by simp [hinv])]
  · intro i h1 h2 hforce hinv
    subst hforce
    rw [hget i h1 h2]
    unfold rowWrite
    rw [if_pos rfl]
    show newAward jp true t.hasAwards amap t.rows[i] = AwardVal.na
    unfold newAward
    rw [if_neg (by simp [hinv])]
  · intro pid hpid
    have htr : tr = validIds jp force t := fetchLoop_ok_trace hfl
    rw [htr] at hpid
    rcases mem_validIds_iff.mp hpid with ⟨r, hr, hval, hid⟩
    refine List.any_eq_true.mpr ⟨r, hr, ?_⟩
    rw [hval, hid]
    simp

def c6wfetch : Int → Except Unit (List (String × Int)) := fun _ => Except.ok [("MVP", 1)]

def c6keep : ARow := ⟨none, some 2, AwardVal.str "has data"⟩

def c6wteam : TeamCsv := ⟨true, [⟨some 5, some 2, AwardVal.na⟩, c6keep]⟩

theorem c6_witness :
    (c6wteam.hasAwards && !true) = false ∧
    processTeam c6wfetch jpNone false true c6wteam
      = ([5], Except.ok ⟨true, [⟨some 5, some 2, AwardVal.dict [("MVP", 1)]⟩, c6keep]⟩) ∧
    ((⟨true, [⟨some 5, some 2, AwardVal.dict [("MVP", 1)]⟩, c6keep]⟩ : TeamCsv).rows[0]).awards
      = AwardVal.dict [("MVP", 1)] ∧
    (⟨true, [⟨some 5, some 2, AwardVal.dict [("MVP", 1)]⟩, c6keep]⟩ : TeamCsv).rows[1]
      = c6wteam.rows[1] :=
  ⟨rfl, by rfl,
   by
    have h := (c6_writeback_frame c6wfetch jpNone false true c6wteam [5]
      ⟨true, [⟨some 5, some 2, AwardVal.dict [("MVP", 1)]⟩, c6keep]⟩ rfl (by rfl)).2.1
      0 (by decide) (by decide) 5 [("MVP", 1)] (by decide) (by decide) rfl
    exact h.trans (by rfl),
   by
    have h := (c6_writeback_frame c6wfetch jpNone false true c6wteam [5]
      ⟨true, [⟨some 5, some 2, AwardVal.dict [("MVP", 1)]⟩, c6keep]⟩ rfl (by rfl)).2.2.1
      1 (by decide) (by decide) rfl (by decide)
    simpa using h⟩

/-- C7: a failed award fetch for an eligible id is fatal for the team run —
the result is an error, not a frame — and atomic: the persisted frame is
exactly the one from before the run, since the file is only rewritten after
the whole fetch loop has completed; and no id is ever attempted twice (no
retry). -/
theorem c7_fetch_failure_fatal_atomic {E : Type}
    (fetch : Int → Except E (List (String × Int))) (jp : String → Option JsonShape)
    (force force_all : Bool) (t : TeamCsv) (pid : Int) (e : E)
    (hskip : (t.hasAwards && !force_all) = false)
    (hmem : pid ∈ validIds jp force t)
    (herr : fetch pid = Except.error e) :
    (processTeam fetch jp force force_all t).2.isOk = false ∧
    runTeamDisk fetch jp force force_all t = t ∧
    (processTeam fetch jp force force_all t).1.Nodup := by
  rcases fetchLoop_error_of_mem _ pid e hmem herr with ⟨e2, he2⟩
  have hproc : processTeam fetch jp force force_all t
      = ((fetchLoop fetch (validIds jp force t)).1, Except.error e2) := by
    unfold processTeam
    rw [hskip]
    simp only [Bool.false_eq_true, if_false]
    cases hfl : fetchLoop fetch (validIds jp force t) with
    | mk tr2 res =>
      rw [hfl] at he2
      have hres : res = Except.error e2 := he2
      rw [hres]
  refine ⟨by rw [hproc]; rfl, ?_, ?_⟩
  · unfold runTeamDisk
    rw [hproc]
  · rw [hproc]
    exact fetchLoop_trace_nodup _ (validIds_nodup jp force t)

def c7team : TeamCsv := ⟨false, [⟨some 7, some 2, AwardVal.na⟩]⟩

theorem c7_witness :
    (c7team.hasAwards && !false) = false ∧
    (7 : Int) ∈ validIds jpNone false c7team ∧
    c4fetch 7 = Except.error () ∧
    (processTeam c4fetch jpNone false false c7team).2.isOk = false ∧
    runTeamDisk c4fetch jpNone false false c7team = c7team :=
  ⟨rfl, by decide, rfl,
   (c7_fetch_failure_fatal_atomic c4fetch jpNone false false c7team 7 ()
     rfl (by decide) rfl).1,
   (c7_fetch_failure_fatal_atomic c4fetch jpNone false false c7team 7 ()
     rfl (by decide) rfl).2.1⟩

/-- C8: in a processed team run that completes, the fetch trace is free of
duplicates and contains exactly the ids of eligible rows — one fetch per
distinct eligible id, however many rows share it — and any two eligible rows
sharing an id receive the same award value. -/
theorem c8_one_fetch_per_id_same_value {E : Type}
    (fetch : Int → Except E (List (String × Int))) (jp : String → Option JsonShape)
    (force force_all : Bool) (t : TeamCsv) (tr : List Int) (t2 : TeamCsv)
    (hskip : (t.hasAwards && !force_all) = false)
    (hok : processTeam fetch jp force force_all t = (tr, Except.ok t2)) :
    tr.Nodup ∧
    (∀ pid ∈ tr, t.rows.any
      (fun r => rowValid jp force t.hasAwards r && r.nba_id == some pid) = true) ∧
    (∀ r ∈ t.rows, ∀ pid : Int,
      rowValid jp force t.hasAwards r = true → r.nba_id = some pid → pid ∈ tr) ∧
    (∀ (i j : Nat) (hi : i < t.rows.length) (hj : j < t.rows.length)
        (hi2 : i < t2.rows.length) (hj2 : j < t2.rows.length),
      rowValid jp force t.hasAwards t.rows[i] = true →
      rowValid jp force t.hasAwards t.rows[j] = true →
      (t.rows[i]).nba_id = (t.rows[j]).nba_id →
      (t2.rows[i]).awards = (t2.rows[j]).awards) := by
  rcases processTeam_ok_destruct hskip hok with ⟨amap, hfl, ht2⟩
  have htr : tr = validIds jp force t := fetchLoop_ok_trace hfl
  have hr2 : t2.rows = writeBack jp force t.hasAwards amap t.rows := by rw [ht2]
  have hget : ∀ (i : Nat) (h1 : i < t.rows.length) (h2 : i < t2.rows.length),
      t2.rows[i] = rowWrite jp force t.hasAwards amap t.rows[i] := by
    intro i h1 h2
    rw [List.getElem_of_eq hr2 h2]
    unfold writeBack
    rw [List.getElem_map]
  refine ⟨?_, ?_, ?_, ?_⟩
  · rw [htr]
    exact validIds_nodup jp force t
  · intro pid hpid
    rw [htr] at hpid
    rcases mem_validIds_iff.mp hpid with ⟨r, hr, hval, hid⟩
    refine List.any_eq_true.mpr ⟨r, hr, ?_⟩
    rw [hval, hid]
    simp
  · intro r hr pid hval hid
    rw [htr]
    exact mem_validIds_iff.mpr ⟨r, hr, hval, hid⟩
  · intro i j hi hj hi2 hj2 hvi hvj hij
    rw [hget i hi hi2, hget j hj hj2, rowWrite_of_valid hvi, rowWrite_of_valid hvj]
    show newAward jp force t.hasAwards amap t.rows[i]
      = newAward jp force t.hasAwards amap t.rows[j]
    unfold newAward
    rw [if_pos hvi, if_pos hvj, hij]

def c8team : TeamCsv := ⟨false, [⟨some 5, some 2, AwardVal.na⟩, ⟨some 5, some 3, AwardVal.na⟩]⟩

def c8out : TeamCsv :=
  ⟨true, [⟨some 5, some 2, AwardVal.dict [("MVP", 1)]⟩, ⟨some 5, some 3, AwardVal.dict [("MVP", 1)]⟩]⟩

theorem c8_witness :
    processTeam c6wfetch jpNone false false c8team = ([5], Except.ok c8out) ∧
    List.count (5 : Int) [(5 : Int)] = 1 ∧
    ([(5 : Int)] : List Int).Nodup ∧
    (c8out.rows[0]).awards = (c8out.rows[1]).awards :=
  ⟨by rfl, by decide,
   (c8_one_fetch_per_id_same_value c6wfetch jpNone false false c8team [5] c8out
     rfl (by rfl)).1,
   (c8_one_fetch_per_id_same_value c6wfetch jpNone false false c8team [5] c8out
     rfl (by rfl)).2.2.2 0 1 (by decide) (by decide) (by decide) (by decide)
     (by decide) (by decide) rfl⟩
